import Mathlib

/-
Verification development for the shaka-player MP4/TTML text parser and the
ms-prefixed EME polyfill (PSSH init-data normalisation, MediaKeyStatusMap).

Buffers (JS Uint8Array) are modelled as `List Nat` of byte values.  The
generic ISO-BMFF box parser (`shaka.util.Mp4Parser`), the PSSH boundary
scanner (`shaka.util.Pssh`) and the text-parser registry
(`shaka.text.TextEngine`) are not part of the sources under verification;
they are modelled from the specification (sections 3, 4.1-4.4 and 6).
The two source files (`mp4_ttml_parser.js`, `patchedmediakeys_ms.js`) are
embedded directly.

Recursion over buffers uses an explicit fuel argument (initialised to
`buffer length + 1`, which always suffices since every step of a scan
consumes at least eight bytes); this keeps every definition computable by
the kernel.
-/

/-- Big-endian 32-bit read at offset `p`; bytes past the end read as 0
(all in-range uses are guarded by remaining-length checks). -/
def readU32 (buf : List Nat) (p : Nat) : Nat :=
  buf.getD p 0 * 16777216 + buf.getD (p + 1) 0 * 65536 +
    buf.getD (p + 2) 0 * 256 + buf.getD (p + 3) 0

/-- Big-endian 24-bit read (full-box flags). -/
def readU24 (buf : List Nat) (p : Nat) : Nat :=
  buf.getD p 0 * 65536 + buf.getD (p + 1) 0 * 256 + buf.getD (p + 2) 0

/-- Big-endian 64-bit read (extended box size). -/
def readU64 (buf : List Nat) (p : Nat) : Nat :=
  readU32 buf p * 4294967296 + readU32 buf (p + 4)

/-- The four-character-code `moov` as a big-endian 32-bit tag value. -/
def moovTag : Nat := 0x6D6F6F76

/-- The four-character-code `trak`. -/
def trakTag : Nat := 0x7472616B

/-- The four-character-code `mdia`. -/
def mdiaTag : Nat := 0x6D646961

/-- The four-character-code `minf`. -/
def minfTag : Nat := 0x6D696E66

/-- The four-character-code `stbl`. -/
def stblTag : Nat := 0x7374626C

/-- The four-character-code `stsd`. -/
def stsdTag : Nat := 0x73747364

/-- The four-character-code `stpp` (TTML subtitle sample entry). -/
def stppTag : Nat := 0x73747070

/-- The four-character-code `mdat`. -/
def mdatTag : Nat := 0x6D646174

/-- The four-character-code `pssh`. -/
def psshTag : Nat := 0x70737368

/-- Zero-copy byte range `[s, e)` of a buffer, with JS `subarray`-style
clamping to the buffer's bounds. -/
def sliceBytes (buf : List Nat) (s e : Nat) : List Nat :=
  (buf.take e).drop s

/-- Outcome of reading one box header at a position inside a scope. -/
inductive HeaderOutcome where
  /-- The scope is exhausted (or, in tolerant mode, too short for a
  header): traversal of the scope ends cleanly. -/
  | endOfScope
  /-- Fewer bytes than a read requires, in non-tolerant mode. -/
  | truncated
  /-- Declared size inconsistent with the available bytes. -/
  | malformed
  /-- A box of type `t` with payload `[contentStart, boxEnd)`; the next
  sibling starts at `boxEnd`. -/
  | box (t contentStart boxEnd : Nat)
deriving DecidableEq, Repr

/-- Modelled from the spec: finish reading a box header (spec 4.2
edge-case policy).  A declared size that is smaller than the header, or
that extends past the enclosing scope, is `malformed` unless operating in
tolerant (partial-input) mode, where the box is clamped to the available
bytes. -/
def finishHeader (tolerant : Bool) (p endPos hlen bsize t : Nat) : HeaderOutcome :=
  if bsize < hlen then
    if tolerant then HeaderOutcome.box t (p + hlen) (p + hlen)
    else HeaderOutcome.malformed
  else if endPos < p + bsize then
    if tolerant then HeaderOutcome.box t (p + hlen) endPos
    else HeaderOutcome.malformed
  else HeaderOutcome.box t (p + hlen) (p + bsize)

/-- Modelled from the spec: read one ISO-BMFF box header at offset `p` of
the scope `[p, endPos)` (spec 3 "Box Header", 4.2, 6).  A 32-bit size of
`1` means an 8-byte extended size follows; `0` means the box extends to
the end of the enclosing scope.  A remainder shorter than a header ends
the scope: cleanly when empty or in tolerant mode, with `truncated`
otherwise. -/
def readBoxHeader (tolerant : Bool) (buf : List Nat) (p endPos : Nat) : HeaderOutcome :=
  if endPos ≤ p then HeaderOutcome.endOfScope
  else if endPos < p + 8 then
    if tolerant then HeaderOutcome.endOfScope else HeaderOutcome.truncated
  else
    let size32 := readU32 buf p
    let t := readU32 buf (p + 4)
    if size32 = 1 then
      if endPos < p + 16 then
        if tolerant then HeaderOutcome.endOfScope else HeaderOutcome.truncated
      else finishHeader tolerant p endPos 16 (readU64 buf (p + 8)) t
    else if size32 = 0 then finishHeader tolerant p endPos 8 (endPos - p) t
    else finishHeader tolerant p endPos 8 size32 t

/-- The error taxonomy of the parsing core.  `truncatedInput` and
`malformedBox` are raised by the box parser; `invalidMp4Ttml` (the spec's
`InvalidContainer`, code `INVALID_MP4_TTML`) only by the two top-level
entry points of the TTML extractor. -/
inductive ShakaError where
  | truncatedInput
  | malformedBox
  | invalidMp4Ttml
deriving DecidableEq, Repr

deriving instance DecidableEq for Except

/-- Modelled from the spec: the handler kinds of the Box Parser's
registration table (spec 3 "Handler Registration Table").  Callbacks take
the traversal state and return the new state together with a stop flag
(the stop handle). -/
inductive Mp4Handler (σ : Type) where
  /-- Recurse into the box's children. -/
  | children
  /-- Invoke a callback on the box's payload bytes. -/
  | box (f : σ → List Nat → σ × Bool)
  /-- Read version (8-bit) and flags (24-bit), then invoke the callback
  with them and the rest of the box. -/
  | fullBox (f : σ → Nat → Nat → List Nat → σ × Bool)
  /-- Consume all remaining bytes of the box as one payload slice. -/
  | allData (f : σ → List Nat → σ × Bool)
  /-- Full box: read version/flags and a 32-bit entry count, then
  re-dispatch that many length-prefixed sample entries. -/
  | sampleDescription

/-- Modelled from the spec: the Box Parser's recursive traversal of one
scope `[p, endPos)` (spec 4.2, 4.3).  `limit = some n` runs the
sample-description entry loop (exactly `n` entries, `malformedBox` if the
scope cannot supply them); `limit = none` scans to the end of the scope.
Unregistered box types are skipped.  A stop requested by a callback
unwinds the whole traversal immediately.  After a callback, the cursor
moves to the header-declared end of the box regardless of what the
callback consumed.  Returns the final state and whether a stop was
requested. -/
def parseScope {σ : Type} (hs : Nat → Option (Mp4Handler σ)) (tolerant : Bool)
    (buf : List Nat) : Nat → Option Nat → Nat → Nat → σ → Except ShakaError (σ × Bool)
  | 0, _, _, _, _ => .error .truncatedInput
  | fuel + 1, limit, p, endPos, s =>
    if limit = some 0 then .ok (s, false)
    else
      match readBoxHeader tolerant buf p endPos with
      | .endOfScope =>
        if limit.isSome then .error .malformedBox else .ok (s, false)
      | .truncated => .error .truncatedInput
      | .malformed => .error .malformedBox
      | .box t cs be =>
        let step : Except ShakaError (σ × Bool) :=
          match hs t with
          | none => .ok (s, false)
          | some .children => parseScope hs tolerant buf fuel none cs be s
          | some (.box f) => .ok (f s (sliceBytes buf cs be))
          | some (.allData f) => .ok (f s (sliceBytes buf cs be))
          | some (.fullBox f) =>
            if cs + 4 ≤ be then
              .ok (f s (buf.getD cs 0) (readU24 buf (cs + 1)) (sliceBytes buf (cs + 4) be))
            else .error .truncatedInput
          | some .sampleDescription =>
            if cs + 8 ≤ be then
              parseScope hs tolerant buf fuel (some (readU32 buf (cs + 4))) (cs + 8) be s
            else .error .truncatedInput
        match step with
        | .error e => .error e
        | .ok (s', true) => .ok (s', true)
        | .ok (s', false) =>
          parseScope hs tolerant buf fuel (limit.map (· - 1)) be endPos s'

/-- Modelled from the spec: top-level `parse(buffer, partialFlag)` of the
Box Parser over a fresh traversal context (spec 4.2). -/
def mp4Parse {σ : Type} (hs : Nat → Option (Mp4Handler σ)) (tolerant : Bool)
    (data : List Nat) (s : σ) : Except ShakaError (σ × Bool) :=
  parseScope hs tolerant data (data.length + 1) none 0 data.length s

/-- Flat structural scan of a scope: the sequence of `(type, payload)`
pairs of the boxes a traversal of that scope encounters, under the same
header rules as `parseScope`.  Used to state which boxes a buffer
contains. -/
def flatScanAux (tolerant : Bool) (buf : List Nat) :
    Nat → Nat → Nat → Except ShakaError (List (Nat × List Nat))
  | 0, _, _ => .error .truncatedInput
  | fuel + 1, p, endPos =>
    match readBoxHeader tolerant buf p endPos with
    | .endOfScope => .ok []
    | .truncated => .error .truncatedInput
    | .malformed => .error .malformedBox
    | .box t cs be =>
      match flatScanAux tolerant buf fuel be endPos with
      | .error e => .error e
      | .ok l => .ok ((t, sliceBytes buf cs be) :: l)

/-- Flat structural scan of a whole buffer (top-level boxes). -/
def flatScan (tolerant : Bool) (data : List Nat) : Except ShakaError (List (Nat × List Nat)) :=
  flatScanAux tolerant data (data.length + 1) 0 data.length

/-- A registration table holding a single all-data handler for one box
type, with the given state update `g` and constant stop flag. -/
def singleAllData {σ : Type} (t0 : Nat) (g : σ → List Nat → σ) (stopFlag : Bool) :
    Nat → Option (Mp4Handler σ) :=
  fun t => if t = t0 then some (.allData (fun s d => (g s d, stopFlag))) else none

/-- The payloads of the `mdat`-typed entries of a flat scan, in file
order. -/
def mdatPayloadsOf (l : List (Nat × List Nat)) : List (List Nat) :=
  (l.filter (fun td => decide (td.1 = mdatTag))).map (fun td => td.2)

/-- The registration table built by `parseInit` of `Mp4TtmlParser`
(mp4_ttml_parser.js lines 52-62): descend through
`moov > trak > mdia > minf > stbl`, dispatch `stsd` as a sample
description, and on a `stpp` sample entry record that it was seen and
stop.  The traversal state is the `sawSTPP` flag. -/
def initHandlers : Nat → Option (Mp4Handler Bool) :=
  fun t =>
    if t = moovTag ∨ t = trakTag ∨ t = mdiaTag ∨ t = minfTag ∨ t = stblTag then
      some .children
    else if t = stsdTag then some .sampleDescription
    else if t = stppTag then some (.box (fun _ _ => (true, true)))
    else none

/-- The traversal performed by `parseInit` (strict mode, fresh `sawSTPP =
false`). -/
def initRun (data : List Nat) : Except ShakaError (Bool × Bool) :=
  mp4Parse initHandlers false data false

/-- `Mp4TtmlParser.parseInit` (mp4_ttml_parser.js lines 47-70): run the
traversal; if it completes with `sawSTPP` still false, throw
`INVALID_MP4_TTML`. -/
def parseInit (data : List Nat) : Except ShakaError Unit :=
  match initRun data with
  | .error e => .error e
  | .ok (sawSTPP, _) => if sawSTPP then .ok () else .error .invalidMp4Ttml

/-- Whether a `stpp` sample entry was observed during the `parseInit`
traversal of `data`: the final value of the `sawSTPP` local, which stays
`false` when the traversal aborts with an error. -/
def sawStppObserved (data : List Nat) : Bool :=
  match initRun data with
  | .ok (sawSTPP, _) => sawSTPP
  | .error _ => false

/-- The registration table built by `parseMediaInternal_`
(mp4_ttml_parser.js lines 100-112): an all-data handler for `mdat` that
records `sawMDAT`, and either decodes the first cue and stops
(`firstOnly`, the source's `partial` flag) or appends the full decode of
this `mdat` to the payload.  The decoders `decF`/`decAll` are the
external `TtmlTextParser`'s `parseFirstCue`/`parseMedia`. -/
def mdatHandlers {Cue τ : Type} (decF : List Nat → τ → Cue)
    (decAll : List Nat → τ → List Cue) (time : τ) (firstOnly : Bool) :
    Nat → Option (Mp4Handler (Bool × List Cue)) :=
  fun t =>
    if t = mdatTag then
      some (.allData (fun s d =>
        if firstOnly then ((true, [decF d time]), true)
        else ((true, s.2 ++ decAll d time), false)))
    else none

/-- The traversal performed by `parseMediaInternal_` (fresh
`sawMDAT = false`, empty payload; the `firstOnly` flag is also the
parser's partial-input flag, as in `parser.parse(data, partial)`). -/
def mediaRun {Cue τ : Type} (decF : List Nat → τ → Cue)
    (decAll : List Nat → τ → List Cue) (time : τ) (firstOnly : Bool)
    (data : List Nat) : Except ShakaError ((Bool × List Cue) × Bool) :=
  mp4Parse (mdatHandlers decF decAll time firstOnly) firstOnly data (false, [])

/-- `Mp4TtmlParser.parseMediaInternal_` (mp4_ttml_parser.js lines
94-123): run the traversal; if it completes with `sawMDAT` still false,
throw `INVALID_MP4_TTML`; otherwise return the accumulated payload. -/
def parseMediaInternal_ {Cue τ : Type} (decF : List Nat → τ → Cue)
    (decAll : List Nat → τ → List Cue) (data : List Nat) (time : τ)
    (firstOnly : Bool) : Except ShakaError (List Cue) :=
  match mediaRun decF decAll time firstOnly data with
  | .error e => .error e
  | .ok ((sawMDAT, payload), _) =>
    if sawMDAT then .ok payload else .error .invalidMp4Ttml

/-- `Mp4TtmlParser.parseMedia` (mp4_ttml_parser.js lines 77-80). -/
def parseMedia {Cue τ : Type} (decF : List Nat → τ → Cue)
    (decAll : List Nat → τ → List Cue) (data : List Nat) (time : τ) :
    Except ShakaError (List Cue) :=
  parseMediaInternal_ decF decAll data time false

/-- `Mp4TtmlParser.parseFirstCue` (mp4_ttml_parser.js lines 72-75):
`parseMediaInternal_(data, time, true)[0]`; indexing `[0]` of a JS array
is modelled by `List.head?`. -/
def parseFirstCue {Cue τ : Type} (decF : List Nat → τ → Cue)
    (decAll : List Nat → τ → List Cue) (data : List Nat) (time : τ) :
    Except ShakaError (Option Cue) :=
  (parseMediaInternal_ decF decAll data time true).map List.head?

/-- A collaborator stub recording each `mdat` payload handed to a
handler: the same registration shape as `mdatHandlers`, with the same
stop behaviour (stop exactly when `firstOnly`). -/
def recHandlers (firstOnly : Bool) : Nat → Option (Mp4Handler (List (List Nat))) :=
  fun t =>
    if t = mdatTag then
      some (.allData (fun rec d => (rec ++ [d], firstOnly)))
    else none

/-- The list of `mdat` payloads the media traversal hands to the external
decoder, via the recording stub. -/
def handedMdats (data : List Nat) (firstOnly : Bool) :
    Except ShakaError (List (List Nat)) :=
  (mp4Parse (recHandlers firstOnly) firstOnly data []).map (fun r => r.1)

/-- Identifier of a parser class in the text-engine registry. -/
inductive TextParserId where
  | mp4Ttml
deriving DecidableEq, Repr

/-- The MIME type registered first (mp4_ttml_parser.js line 127). -/
def stppMime : String := "application/mp4; codecs=\"stpp\""

/-- The MIME type registered second (mp4_ttml_parser.js line 129). -/
def stppIm1tMime : String := "application/mp4; codecs=\"stpp.TTML.im1t\""

/-- Modelled from the spec: `shaka.text.TextEngine`'s format-to-parser
registry (spec 6, "Collaborator interface exposed"), after the two
`registerParser` calls at mp4_ttml_parser.js lines 127-130. -/
def registeredTextParsers : List (String × TextParserId) :=
  [(stppMime, TextParserId.mp4Ttml), (stppIm1tMime, TextParserId.mp4Ttml)]

/-- Big-endian 32-bit value as four bytes (test-data construction). -/
def u32Bytes (n : Nat) : List Nat :=
  [n / 16777216 % 256, n / 65536 % 256, n / 256 % 256, n % 256]

/-- A box with the given type tag and payload (test-data construction). -/
def mkBox (tag : Nat) (payload : List Nat) : List Nat :=
  u32Bytes (payload.length + 8) ++ u32Bytes tag ++ payload

/-- Synthetic initialization segment
`moov > trak > mdia > minf > stbl > stsd(version 0, count 1, entry stpp)`
(spec 8, initialization-check property). -/
def stppInitSegment : List Nat :=
  mkBox moovTag (mkBox trakTag (mkBox mdiaTag (mkBox minfTag
    (mkBox stblTag (mkBox stsdTag ([0, 0, 0, 0] ++ u32Bytes 1 ++ mkBox stppTag []))))))

/-- A buffer holding two `mdat` boxes back-to-back (spec 8, media
extraction properties). -/
def twoMdatBuf : List Nat :=
  mkBox mdatTag [1, 2, 3] ++ mkBox mdatTag [4, 5]

/-- A `{start, end}` byte-offset record of the PSSH boundary scan; the
`endOffset` field models the record's `end` offset, which the spec states
is exclusive (spec 3 "Pssh Boundary Record": the header-declared end of
the box). -/
structure PsshBoundary where
  start : Nat
  endOffset : Nat
deriving DecidableEq, Repr

/-- Modelled from the spec: the flat PSSH boundary scan of
`shaka.util.Pssh` (spec 4.4).  Starting at offset 0, repeatedly read a
box header; while it is well-formed and its declared end does not exceed
the buffer, record `{start, end}` and advance to that end; on a malformed
or oversized header stop and keep what was found.  Box types are not
inspected. -/
def psshScanAux (buf : List Nat) : Nat → Nat → List PsshBoundary
  | 0, _ => []
  | fuel + 1, p =>
    match readBoxHeader false buf p buf.length with
    | .box _ _ be => ⟨p, be⟩ :: psshScanAux buf fuel be
    | _ => []

/-- Modelled from the spec: `(new shaka.util.Pssh(buf)).dataBoundaries`
(spec 4.4). -/
def psshDataBoundaries (buf : List Nat) : List PsshBoundary :=
  psshScanAux buf (buf.length + 1) 0

/-- JS `Uint8Array.subarray(s, e)`: the bytes `[s, e)` clamped to the
buffer. -/
def jsSubarray (b : List Nat) (s e : Nat) : List Nat :=
  sliceBytes b s e

/-- The deduplication loop of `normaliseInitData_`
(patchedmediakeys_ms.js lines 154-165): keep a region only when no
previously kept region is byte-for-byte equal to it. -/
def dedupInitDatas (l : List (List Nat)) : List (List Nat) :=
  l.foldl (fun acc x => if acc.any (fun y => y == x) then acc else acc ++ [x]) []

/-- What the spec's words describe (spec 4.4, deduplication consumer
contract): retain only the first occurrence of each distinct region, in
original order.  `seen` accumulates the regions already passed. -/
def firstOccurrencesAux : List (List Nat) → List (List Nat) → List (List Nat)
  | _, [] => []
  | seen, x :: xs =>
    if x ∈ seen then firstOccurrencesAux (x :: seen) xs
    else x :: firstOccurrencesAux (x :: seen) xs

/-- First occurrences of the distinct elements of a list, in original
order (the spec's description of deduplication). -/
def firstOccurrences (l : List (List Nat)) : List (List Nat) :=
  firstOccurrencesAux [] l

/-- `PatchedMediaKeysMs.normaliseInitData_` (patchedmediakeys_ms.js lines
133-168).  `none` models a null/undefined `initData` argument.  With at
most one boundary the input is returned unchanged; otherwise each
boundary is sliced as `subarray(start, end + 1)` (the source's comment:
"End is exclusive, hence the +1"), the slices are deduplicated and
concatenated. -/
def normaliseInitData_ (initData : Option (List Nat)) : Option (List Nat) :=
  match initData with
  | none => none
  | some b =>
    let boundaries := psshDataBoundaries b
    if boundaries.length ≤ 1 then some b
    else
      let unfilteredInitDatas :=
        boundaries.map (fun db => jsSubarray b db.start (db.endOffset + 1))
      some (dedupInitDatas unfilteredInitDatas).flatten

/-- A 32-byte `pssh` box (full box: version/flags zero, then 20 payload
bytes). -/
def psshBox32 : List Nat :=
  mkBox psshTag ([0, 0, 0, 0] ++ List.replicate 20 170)

/-- Two identical 32-byte `pssh` boxes back-to-back (spec 8, PSSH
properties). -/
def twoPsshBuf : List Nat :=
  psshBox32 ++ psshBox32

/-- `PatchedMediaKeysMs.MediaKeyStatusMap` (patchedmediakeys_ms.js lines
684-761): a fake map with a single key ID; `size` is a plain field,
`status_` holds the single status (`none` models `undefined`). -/
structure MediaKeyStatusMap where
  size : Nat
  status_ : Option String
deriving DecidableEq, Repr

/-- The `MediaKeyStatusMap` constructor (lines 685-695): `size = 0`,
`status_ = undefined`. -/
def MediaKeyStatusMap.construct : MediaKeyStatusMap :=
  { size := 0, status_ := none }

/-- `MediaKeyStatusMap.setStatus` (lines 701-704):
`size = status == undefined ? 0 : 1; status_ = status`. -/
def MediaKeyStatusMap.setStatus (m : MediaKeyStatusMap) (status : Option String) :
    MediaKeyStatusMap :=
  { m with size := if status = none then 0 else 1, status_ := status }

/-- `MediaKeyStatusMap.getStatus` (lines 710-712). -/
def MediaKeyStatusMap.getStatus (m : MediaKeyStatusMap) : Option String :=
  m.status_

/-- The size invariant claimed for `MediaKeyStatusMap`: `size` is 1 when
a status is set and 0 when none is. -/
def MediaKeyStatusMap.sizeInvariant (m : MediaKeyStatusMap) : Prop :=
  m.size = if m.status_ = none then 0 else 1

/-- The membership test of the deduplication loop: `some`-with-`equal`
over the kept list is membership. -/
theorem dedup_any_mem (acc : List (List Nat)) (x : List Nat) :
    (acc.any (fun y => y == x) = true) ↔ x ∈ acc := by
  simp [List.any_eq_true, beq_iff_eq]

/-- The deduplication fold keeps exactly the first occurrences, for any
kept/seen pair describing the same set. -/
theorem dedup_foldl_firstOccurrences :
    ∀ (l acc seen : List (List Nat)), (∀ x, x ∈ acc ↔ x ∈ seen) →
      l.foldl (fun acc x => if acc.any (fun y => y == x) then acc else acc ++ [x]) acc
        = acc ++ firstOccurrencesAux seen l := by
  intro l
  induction l with
  | nil => intro acc seen _; simp [firstOccurrencesAux]
  | cons x xs ih =>
    intro acc seen h
    simp only [List.foldl_cons, firstOccurrencesAux]
    by_cases hx : x ∈ seen
    · rw [if_pos ((dedup_any_mem acc x).mpr ((h x).mpr hx)), if_pos hx,
        ih acc (x :: seen) ?_]
      intro y
      rw [h y, List.mem_cons]
      exact ⟨Or.inr, fun hy => hy.elim (fun hyx => hyx ▸ hx) id⟩
    · rw [if_neg (fun hc => hx ((h x).mp ((dedup_any_mem acc x).mp hc))),
        if_neg hx, ih (acc ++ [x]) (x :: seen) ?_, List.append_assoc]
      · rfl
      · intro y
        simp only [List.mem_append, List.mem_cons, List.mem_singleton, h y]
        tauto

/-- C9: for a null or undefined `initData` argument (modelled as `none`),
`normaliseInitData_` returns it unchanged; being a pure short-circuit, no
boundary scan or deduplication contributes to the result. -/
theorem claim9_null_initData_unchanged : normaliseInitData_ none = none := rfl

/-- C10: the `MediaKeyStatusMap` size invariant (size is 1 when a status
is set, 0 when none is) holds after construction and after every
`setStatus` call, on any prior state and for every argument including
`undefined` (`none`). -/
theorem claim10_statusMap_size_invariant :
    MediaKeyStatusMap.construct.sizeInvariant ∧
      ∀ (m : MediaKeyStatusMap) (s : Option String), (m.setStatus s).sizeInvariant := by
  refine ⟨by simp [MediaKeyStatusMap.sizeInvariant, MediaKeyStatusMap.construct], ?_⟩
  intro m s
  cases s <;> simp [MediaKeyStatusMap.sizeInvariant, MediaKeyStatusMap.setStatus]

/-- C5: whenever the PSSH boundary scan finds at most one boundary,
`normaliseInitData_` returns the input buffer itself, unchanged. -/
theorem claim5_single_boundary_unchanged (b : List Nat)
    (h : (psshDataBoundaries b).length ≤ 1) :
    normaliseInitData_ (some b) = some b := by
  unfold normaliseInitData_
  simp only [if_pos h]

/-- Witness for C5 at the empty buffer: the scan finds no boundary and
the buffer comes back unchanged. -/
theorem claim5_single_boundary_unchanged_witness :
    (psshDataBoundaries []).length ≤ 1 ∧ normaliseInitData_ (some []) = some [] :=
  ⟨by decide, claim5_single_boundary_unchanged [] (by decide)⟩

/-- C6: the deduplication step of `normaliseInitData_` retains exactly
the first occurrence of each distinct region, in original order, as the
spec describes. -/
theorem claim6_dedup_is_first_occurrences :
    ∀ l : List (List Nat), dedupInitDatas l = firstOccurrences l := by
  intro l
  unfold dedupInitDatas firstOccurrences
  simpa using dedup_foldl_firstOccurrences l [] [] (by simp)

/-- C1: evaluation at the failing input.  Over two identical 32-byte
`pssh` boxes back-to-back the boundary scan yields the exclusive-end
records `{0, 32}` and `{32, 64}`, but `normaliseInitData_` slices
`subarray(start, end + 1)` — one byte past each box — so the two slices
differ, deduplication keeps both, and the result is 65 bytes instead of
the single 32-byte region the claim requires. -/
theorem claim1_dedup_overslice_failing_input :
    psshDataBoundaries twoPsshBuf = [⟨0, 32⟩, ⟨32, 64⟩] ∧
      (normaliseInitData_ (some twoPsshBuf)).map List.length = some 65 ∧
      normaliseInitData_ (some twoPsshBuf) ≠ some psshBox32 := by
  decide

/-- C7: the registry maps both recognized codec identifiers
(`codecs="stpp"` and `codecs="stpp.TTML.im1t"`) to the same parser, so
dispatch does not distinguish them; the sample-entry tag both correspond
to is `stpp`, and `parseInit` succeeds on a container declaring it under
the `moov > trak > mdia > minf > stbl > stsd` chain. -/
theorem claim7_stpp_codecs_equivalent :
    registeredTextParsers.lookup stppMime = some TextParserId.mp4Ttml ∧
      registeredTextParsers.lookup stppIm1tMime = some TextParserId.mp4Ttml ∧
      parseInit stppInitSegment = .ok () := by
  decide

/-- C2, counterexample: at the one-byte buffer `[0]` the `parseInit`
traversal aborts with `truncatedInput`, so no `stpp` entry was seen and
yet `INVALID_MP4_TTML` is not signalled — the claimed "if and only if no
subtitle sample entry was seen" fails. -/
theorem claim2_invalid_iff_counterexample :
    ¬ (parseInit [0] = .error .invalidMp4Ttml ↔ sawStppObserved [0] = false) := by
  decide

/-- The traversal only ever raises `truncatedInput` or `malformedBox`;
`invalidMp4Ttml` is never produced inside the box parser. -/
theorem parseScope_error_kinds {σ : Type} (hs : Nat → Option (Mp4Handler σ)) (tol : Bool)
    (buf : List Nat) :
    ∀ (fuel : Nat) (limit : Option Nat) (p e : Nat) (s : σ) (er : ShakaError),
      parseScope hs tol buf fuel limit p e s = .error er →
      er = .truncatedInput ∨ er = .malformedBox := by
  intro fuel
  induction fuel with
  | zero =>
    intro limit p e s er h
    rw [parseScope] at h
    exact Or.inl (Except.error.inj h).symm
  | succ fuel ih =>
    intro limit p e s er h
    rw [parseScope] at h
    by_cases hl : limit = some 0
    · rw [if_pos hl] at h
      exact absurd h (by simp)
    rw [if_neg hl] at h
    rcases hh : readBoxHeader tol buf p e with _ | _ | _ | ⟨t, cs, be⟩ <;> rw [hh] at h
    · cases hq : limit.isSome
      · simp [hq] at h
      · simp [hq] at h
        exact Or.inr h.symm
    · simp at h
      exact Or.inl h.symm
    · simp at h
      exact Or.inr h.symm
    · dsimp only at h
      rcases hst : hs t with _ | hdl <;> rw [hst] at h
      · dsimp only at h
        exact ih _ _ _ _ _ h
      · cases hdl with
        | children =>
          dsimp only at h
          rcases hc : parseScope hs tol buf fuel none cs be s with er' | v <;> rw [hc] at h
          · simp at h
            exact h ▸ ih _ _ _ _ _ hc
          · rcases v with ⟨s', st⟩
            cases st
            · dsimp only at h
              exact ih _ _ _ _ _ h
            · simp at h
        | box f =>
          dsimp only at h
          rcases hf : f s (sliceBytes buf cs be) with ⟨s', st⟩
          rw [hf] at h
          cases st
          · dsimp only at h
            exact ih _ _ _ _ _ h
          · simp at h
        | fullBox f =>
          dsimp only at h
          by_cases hc4 : cs + 4 ≤ be
          · rw [if_pos hc4] at h
            rcases hf : f s (buf.getD cs 0) (readU24 buf (cs + 1)) (sliceBytes buf (cs + 4) be)
              with ⟨s', st⟩
            rw [hf] at h
            cases st
            · dsimp only at h
              exact ih _ _ _ _ _ h
            · simp at h
          · rw [if_neg hc4] at h
            simp at h
            exact Or.inl h.symm
        | allData f =>
          dsimp only at h
          rcases hf : f s (sliceBytes buf cs be) with ⟨s', st⟩
          rw [hf] at h
          cases st
          · dsimp only at h
            exact ih _ _ _ _ _ h
          · simp at h
        | sampleDescription =>
          dsimp only at h
          by_cases hc8 : cs + 8 ≤ be
          · rw [if_pos hc8] at h
            rcases hc : parseScope hs tol buf fuel (some (readU32 buf (cs + 4))) (cs + 8) be s
              with er' | v <;> rw [hc] at h
            · simp at h
              exact h ▸ ih _ _ _ _ _ hc
            · rcases v with ⟨s', st⟩
              cases st
              · dsimp only at h
                exact ih _ _ _ _ _ h
              · simp at h
          · rw [if_neg hc8] at h
            simp at h
            exact Or.inl h.symm

/-- With a single never-stopping all-data registration, the traversal of
a scope is a fold of the handler over the flat scan of that scope (one
handler invocation per matching box, in encounter order), and it errs
exactly when the flat scan errs. -/
theorem parseScope_singleAllData_noStop {σ : Type} (t0 : Nat) (g : σ → List Nat → σ)
    (tol : Bool) (buf : List Nat) :
    ∀ (fuel p e : Nat) (s : σ),
      parseScope (singleAllData t0 g false) tol buf fuel none p e s =
        match flatScanAux tol buf fuel p e with
        | .error er => .error er
        | .ok l =>
          .ok (l.foldl (fun s td => if td.1 = t0 then g s td.2 else s) s, false) := by
  intro fuel
  induction fuel with
  | zero => intro p e s; rfl
  | succ fuel ih =>
    intro p e s
    rw [parseScope, flatScanAux, if_neg (show ¬((none : Option Nat) = some 0) by simp)]
    rcases hh : readBoxHeader tol buf p e with _ | _ | _ | ⟨t, cs, be⟩
    · simp
    · simp
    · simp
    · dsimp only
      by_cases ht : t = t0
      · rw [show singleAllData t0 g false t = some (.allData (fun s d => (g s d, false)))
          from by simp [singleAllData, ht]]
        dsimp only
        rw [show Option.map (fun x => x - 1) (none : Option Nat) = none from rfl, ih]
        rcases hfs : flatScanAux tol buf fuel be e with er | l <;> simp [hfs, ht]
      · rw [show singleAllData t0 g false t = none from by simp [singleAllData, ht]]
        dsimp only
        rw [show Option.map (fun x => x - 1) (none : Option Nat) = none from rfl, ih]
        rcases hfs : flatScanAux tol buf fuel be e with er | l <;> simp [hfs, ht]

/-- With a single always-stopping all-data registration, over a scope
whose flat scan succeeds, the traversal ends cleanly when no box of the
registered type occurs, and otherwise invokes the handler exactly once —
on the first matching box — and stops immediately. -/
theorem parseScope_singleAllData_stop {σ : Type} (t0 : Nat) (g : σ → List Nat → σ)
    (tol : Bool) (buf : List Nat) :
    ∀ (fuel p e : Nat) (s : σ) (l : List (Nat × List Nat)),
      flatScanAux tol buf fuel p e = .ok l →
      parseScope (singleAllData t0 g true) tol buf fuel none p e s =
        match l.find? (fun td => decide (td.1 = t0)) with
        | none => .ok (s, false)
        | some td => .ok (g s td.2, true) := by
  intro fuel
  induction fuel with
  | zero =>
    intro p e s l hl
    rw [flatScanAux] at hl
    exact absurd hl (by simp)
  | succ fuel ih =>
    intro p e s l hl
    rw [flatScanAux] at hl
    rw [parseScope, if_neg (show ¬((none : Option Nat) = some 0) by simp)]
    rcases hh : readBoxHeader tol buf p e with _ | _ | _ | ⟨t, cs, be⟩ <;>
      rw [hh] at hl
    · simp at hl
      subst hl
      simp [List.find?]
    · simp at hl
    · simp at hl
    · dsimp only at hl
      rcases hfs : flatScanAux tol buf fuel be e with er | l' <;> rw [hfs] at hl
      · simp at hl
      · simp at hl
        subst hl
        dsimp only
        by_cases ht : t = t0
        · rw [show singleAllData t0 g true t = some (.allData (fun s d => (g s d, true)))
            from by simp [singleAllData, ht]]
          dsimp only
          simp [List.find?, ht]
        · rw [show singleAllData t0 g true t = none from by simp [singleAllData, ht]]
          dsimp only
          rw [show Option.map (fun x => x - 1) (none : Option Nat) = none from rfl,
            ih _ _ _ _ hfs]
          simp [List.find?, ht]

/-- The recording stub's registration table is a single all-data handler
for `mdat`. -/
theorem recHandlers_eq_singleAllData (fo : Bool) :
    recHandlers fo = singleAllData mdatTag (fun rec d => rec ++ [d]) fo := by
  funext t
  by_cases ht : t = mdatTag <;> simp [recHandlers, singleAllData, ht]

/-- In first-cue mode the media registration table is a single
always-stopping all-data handler for `mdat`. -/
theorem mdatHandlers_first_eq_singleAllData {Cue τ : Type} (decF : List Nat → τ → Cue)
    (decAll : List Nat → τ → List Cue) (time : τ) :
    mdatHandlers decF decAll time true
      = singleAllData mdatTag
          (fun _ d => ((true, [decF d time]) : Bool × List Cue)) true := by
  funext t
  by_cases ht : t = mdatTag <;> simp [mdatHandlers, singleAllData, ht]

/-- In full-extraction mode the media registration table is a single
never-stopping all-data handler for `mdat`. -/
theorem mdatHandlers_full_eq_singleAllData {Cue τ : Type} (decF : List Nat → τ → Cue)
    (decAll : List Nat → τ → List Cue) (time : τ) :
    mdatHandlers decF decAll time false
      = singleAllData mdatTag
          (fun s d => ((true, s.2 ++ decAll d time) : Bool × List Cue)) false := by
  funext t
  by_cases ht : t = mdatTag <;> simp [mdatHandlers, singleAllData, ht]

/-- `find?` returns the head of the filtered list. -/
theorem find?_eq_head?_filter {α : Type} (p : α → Bool) :
    ∀ l : List α, l.find? p = (l.filter p).head? := by
  intro l
  induction l with
  | nil => rfl
  | cons x xs ih =>
    rw [List.find?, List.filter]
    cases hx : p x
    · dsimp only
      exact ih
    · dsimp only
      rfl

/-- The recording fold collects exactly the `mdat` payloads, in order. -/
theorem foldl_mdat_append :
    ∀ (l : List (Nat × List Nat)) (acc : List (List Nat)),
      l.foldl (fun rec td => if td.1 = mdatTag then rec ++ [td.2] else rec) acc
        = acc ++ mdatPayloadsOf l := by
  intro l
  induction l with
  | nil => intro acc; simp [mdatPayloadsOf]
  | cons td tl ih =>
    intro acc
    by_cases ht : td.1 = mdatTag <;>
      simp [ht, ih, mdatPayloadsOf, List.filter_cons]

/-- The full-extraction fold marks `sawMDAT` exactly when some `mdat`
occurs and concatenates the per-`mdat` decodes in encounter order. -/
theorem foldl_mdat_media {Cue τ : Type} (decAll : List Nat → τ → List Cue) (time : τ) :
    ∀ (l : List (Nat × List Nat)) (saw : Bool) (pl : List Cue),
      l.foldl
          (fun s td =>
            if td.1 = mdatTag then ((true, s.2 ++ decAll td.2 time) : Bool × List Cue)
            else s) (saw, pl)
        = (saw || l.any (fun td => decide (td.1 = mdatTag)),
            pl ++ ((mdatPayloadsOf l).map (fun d => decAll d time)).flatten) := by
  intro l
  induction l with
  | nil => intro saw pl; simp [mdatPayloadsOf]
  | cons td tl ih =>
    intro saw pl
    by_cases ht : td.1 = mdatTag <;>
      simp [ht, ih, mdatPayloadsOf, List.filter_cons]

/-- C2, amended: each entry point signals `INVALID_MP4_TTML` exactly when
its traversal completed without a parsing error and the required box was
never observed — `parseInit` iff the traversal returned with `sawSTPP`
false, `parseMediaInternal_` (hence `parseMedia`/`parseFirstCue`) iff the
traversal returned with `sawMDAT` false.  A traversal that aborts with a
parsing error never yields `INVALID_MP4_TTML`. -/
theorem claim2_invalid_container_iff {Cue τ : Type} (decF : List Nat → τ → Cue)
    (decAll : List Nat → τ → List Cue) (time : τ) (data : List Nat) :
    (parseInit data = .error .invalidMp4Ttml ↔
        ∃ st, initRun data = .ok (false, st)) ∧
      (parseMediaInternal_ decF decAll data time false = .error .invalidMp4Ttml ↔
        ∃ pl st, mediaRun decF decAll time false data = .ok ((false, pl), st)) ∧
      (parseFirstCue decF decAll data time = .error .invalidMp4Ttml ↔
        ∃ pl st, mediaRun decF decAll time true data = .ok ((false, pl), st)) := by
  refine ⟨?_, ?_, ?_⟩
  · rcases hr : initRun data with er | ⟨saw, st⟩
    · have hr' : parseScope initHandlers false data (data.length + 1) none 0 data.length false
          = .error er := hr
      rcases parseScope_error_kinds initHandlers false data _ _ _ _ _ _ hr' with rfl | rfl <;>
        simp [parseInit, hr]
    · cases saw <;> simp [parseInit, hr]
  · rcases hr : mediaRun decF decAll time false data with er | ⟨⟨saw, pl⟩, st⟩
    · have hr' : parseScope (mdatHandlers decF decAll time false) false data
          (data.length + 1) none 0 data.length (false, []) = .error er := hr
      rcases parseScope_error_kinds _ _ _ _ _ _ _ _ _ hr' with rfl | rfl <;>
        simp [parseMediaInternal_, hr]
    · cases saw <;> simp [parseMediaInternal_, hr]
  · rcases hr : mediaRun decF decAll time true data with er | ⟨⟨saw, pl⟩, st⟩
    · have hr' : parseScope (mdatHandlers decF decAll time true) true data
          (data.length + 1) none 0 data.length (false, []) = .error er := hr
      rcases parseScope_error_kinds _ _ _ _ _ _ _ _ _ hr' with rfl | rfl <;>
        simp [parseFirstCue, parseMediaInternal_, hr, Except.map]
    · cases saw <;> simp [parseFirstCue, parseMediaInternal_, hr, Except.map]

/-- C8: parsing errors from the nested traversal propagate unchanged
through `parseInit`, `parseMediaInternal_` and `parseFirstCue` (no
wrapping, translation or suppression), and the only error the entry
points introduce on their own is `INVALID_MP4_TTML`. -/
theorem claim8_error_propagation {Cue τ : Type} (decF : List Nat → τ → Cue)
    (decAll : List Nat → τ → List Cue) (time : τ) (data : List Nat) :
    (∀ er, initRun data = .error er → parseInit data = .error er) ∧
      (∀ er fo, mediaRun decF decAll time fo data = .error er →
        parseMediaInternal_ decF decAll data time fo = .error er) ∧
      (∀ er, parseMediaInternal_ decF decAll data time true = .error er →
        parseFirstCue decF decAll data time = .error er) ∧
      (∀ er, parseInit data = .error er →
        initRun data = .error er ∨ er = .invalidMp4Ttml) ∧
      (∀ er fo, parseMediaInternal_ decF decAll data time fo = .error er →
        mediaRun decF decAll time fo data = .error er ∨ er = .invalidMp4Ttml) := by
  refine ⟨?_, ?_, ?_, ?_, ?_⟩
  · intro er h
    rw [parseInit, h]
  · intro er fo h
    rw [parseMediaInternal_, h]
  · intro er h
    rw [parseFirstCue, h]
    rfl
  · intro er h
    rcases hr : initRun data with er' | ⟨saw, st⟩
    · rw [parseInit, hr] at h
      dsimp only at h
      cases Except.error.inj h
      exact Or.inl rfl
    · rw [parseInit, hr] at h
      cases saw
      · simp at h
        exact Or.inr h.symm
      · simp at h
  · intro er fo h
    rcases hr : mediaRun decF decAll time fo data with er' | ⟨⟨saw, pl⟩, st⟩
    · rw [parseMediaInternal_, hr] at h
      dsimp only at h
      cases Except.error.inj h
      exact Or.inl rfl
    · rw [parseMediaInternal_, hr] at h
      cases saw
      · simp at h
        exact Or.inr h.symm
      · simp at h

/-- Witness for C8 at the one-byte buffer: the traversal's
`truncatedInput` passes through `parseInit` unchanged. -/
theorem claim8_error_propagation_witness :
    initRun [0] = .error .truncatedInput ∧ parseInit [0] = .error .truncatedInput :=
  ⟨by decide,
    (@claim8_error_propagation Nat Nat (fun _ _ => 0) (fun _ _ => []) 0 [0]).1
      .truncatedInput (by decide)⟩

/-- C3: in first-cue mode, over any buffer whose flat scan holds two or
more `mdat` boxes, the handler (hence the external first-cue decoder) is
invoked exactly once, on the first `mdat` payload — later `mdat` boxes
are never visited — and the returned value is the single cue decoded
from that first payload. -/
theorem claim3_first_cue_only {Cue τ : Type} (decF : List Nat → τ → Cue)
    (decAll : List Nat → τ → List Cue) (time : τ) (data : List Nat)
    (l : List (Nat × List Nat)) (m1 m2 : List Nat) (ms : List (List Nat))
    (hscan : flatScan true data = .ok l)
    (hmdats : mdatPayloadsOf l = m1 :: m2 :: ms) :
    handedMdats data true = .ok [m1] ∧
      parseFirstCue decF decAll data time = .ok (some (decF m1 time)) := by
  rw [flatScan] at hscan
  obtain ⟨t1, hfind⟩ : ∃ t1, l.find? (fun td => decide (td.1 = mdatTag)) = some (t1, m1) := by
    rcases hf : l.filter (fun td => decide (td.1 = mdatTag)) with _ | ⟨td, tl⟩
    · rw [mdatPayloadsOf, hf] at hmdats
      simp at hmdats
    · rw [mdatPayloadsOf, hf] at hmdats
      simp only [List.map_cons, List.cons.injEq] at hmdats
      have htd : td = (td.1, m1) := by rw [← hmdats.1]
      refine ⟨td.1, ?_⟩
      rw [find?_eq_head?_filter, hf, List.head?_cons]
      exact congrArg some htd
  constructor
  · have hb := parseScope_singleAllData_stop mdatTag (fun rec d => rec ++ [d]) true data
      (data.length + 1) 0 data.length [] l hscan
    rw [handedMdats, mp4Parse, recHandlers_eq_singleAllData, hb, hfind]
    rfl
  · have hb := parseScope_singleAllData_stop mdatTag
      (fun (_ : Bool × List Cue) d => ((true, [decF d time]) : Bool × List Cue)) true data
      (data.length + 1) 0 data.length (false, []) l hscan
    have hrun : mediaRun decF decAll time true data = .ok ((true, [decF m1 time]), true) := by
      rw [mediaRun, mp4Parse, mdatHandlers_first_eq_singleAllData, hb, hfind]
    rw [parseFirstCue, parseMediaInternal_, hrun]
    rfl

/-- Witness for C3 at the two-`mdat` buffer, with decoders returning the
payload itself: only the first `mdat` is decoded. -/
theorem claim3_first_cue_only_witness :
    flatScan true twoMdatBuf = .ok [(mdatTag, [1, 2, 3]), (mdatTag, [4, 5])] ∧
      handedMdats twoMdatBuf true = .ok [[1, 2, 3]] ∧
      parseFirstCue (fun d _ => d) (fun d _ => [d]) twoMdatBuf () = .ok (some [1, 2, 3]) := by
  have h1 : flatScan true twoMdatBuf = .ok [(mdatTag, [1, 2, 3]), (mdatTag, [4, 5])] := by
    decide
  have h2 := claim3_first_cue_only (fun d (_ : Unit) => d) (fun d _ => [d]) () twoMdatBuf
    [(mdatTag, [1, 2, 3]), (mdatTag, [4, 5])] [1, 2, 3] [4, 5] [] h1 (by decide)
  exact ⟨h1, h2.1, h2.2⟩

/-- C4: in full-extraction mode, over any buffer whose flat scan
succeeds, every `mdat` payload is handed to the handler (hence the
external full decoder), in encounter order, and the result concatenates
the per-`mdat` decodes in that order (with `INVALID_MP4_TTML` when there
is no `mdat` at all). -/
theorem claim4_full_extraction {Cue τ : Type} (decF : List Nat → τ → Cue)
    (decAll : List Nat → τ → List Cue) (time : τ) (data : List Nat)
    (l : List (Nat × List Nat)) (h : flatScan false data = .ok l) :
    handedMdats data false = .ok (mdatPayloadsOf l) ∧
      (mdatPayloadsOf l ≠ [] →
        parseMedia decF decAll data time =
          .ok (((mdatPayloadsOf l).map (fun d => decAll d time)).flatten)) ∧
      (mdatPayloadsOf l = [] →
        parseMedia decF decAll data time = .error .invalidMp4Ttml) := by
  rw [flatScan] at h
  have hrec := parseScope_singleAllData_noStop mdatTag (fun rec d => rec ++ [d]) false data
    (data.length + 1) 0 data.length []
  have hmed := parseScope_singleAllData_noStop mdatTag
    (fun (s : Bool × List Cue) d => ((true, s.2 ++ decAll d time) : Bool × List Cue))
    false data (data.length + 1) 0 data.length (false, [])
  rw [h] at hrec hmed
  have hrun : mediaRun decF decAll time false data
      = .ok ((l.any (fun td => decide (td.1 = mdatTag)),
          ((mdatPayloadsOf l).map (fun d => decAll d time)).flatten), false) := by
    rw [mediaRun, mp4Parse, mdatHandlers_full_eq_singleAllData, hmed]
    simp [foldl_mdat_media]
  refine ⟨?_, ?_, ?_⟩
  · rw [handedMdats, mp4Parse, recHandlers_eq_singleAllData, hrec]
    simp [foldl_mdat_append, Except.map]
  · intro hne
    have hany : l.any (fun td => decide (td.1 = mdatTag)) = true := by
      rcases hf : l.filter (fun td => decide (td.1 = mdatTag)) with _ | ⟨td, tl⟩
      · exact absurd (by rw [mdatPayloadsOf, hf]; rfl) hne
      · have htdmem : td ∈ l.filter (fun td => decide (td.1 = mdatTag)) :=
          hf ▸ List.mem_cons_self td tl
        have hmf := List.mem_filter.mp htdmem
        exact List.any_eq_true.mpr ⟨td, hmf.1, hmf.2⟩
    rw [parseMedia, parseMediaInternal_, hrun]
    dsimp only
    rw [hany]
    simp
  · intro hnil
    have hany : l.any (fun td => decide (td.1 = mdatTag)) = false := by
      cases hb : l.any (fun td => decide (td.1 = mdatTag))
      · rfl
      · rcases List.any_eq_true.mp hb with ⟨td, hmem, hpred⟩
        have htd : td ∈ l.filter (fun td => decide (td.1 = mdatTag)) :=
          List.mem_filter.mpr ⟨hmem, hpred⟩
        rcases hf : l.filter (fun td => decide (td.1 = mdatTag)) with _ | ⟨td', tl⟩
        · rw [hf] at htd
          simp at htd
        · rw [mdatPayloadsOf, hf] at hnil
          simp at hnil
    rw [parseMedia, parseMediaInternal_, hrun]
    dsimp only
    rw [hany]
    simp

/-- Witness for C4 at the two-`mdat` buffer: both payloads are handed
over and both decodes appear, in file order. -/
theorem claim4_full_extraction_witness :
    flatScan false twoMdatBuf = .ok [(mdatTag, [1, 2, 3]), (mdatTag, [4, 5])] ∧
      handedMdats twoMdatBuf false = .ok [[1, 2, 3], [4, 5]] ∧
      parseMedia (fun d _ => d) (fun d _ => [d]) twoMdatBuf () = .ok [[1, 2, 3], [4, 5]] := by
  have h1 : flatScan false twoMdatBuf = .ok [(mdatTag, [1, 2, 3]), (mdatTag, [4, 5])] := by
    decide
  have h2 := claim4_full_extraction (fun d (_ : Unit) => d) (fun d _ => [d]) () twoMdatBuf
    [(mdatTag, [1, 2, 3]), (mdatTag, [4, 5])] h1
  exact ⟨h1, h2.1, by simpa using h2.2.1 (by decide)⟩
